import Mathlib

/-!
Shallow embedding of the QRDFP-X entropy / key-derivation / authenticated
encryption core.

The modelled sources:
* the browser crypto module (hexToBytes, bytesToHex, bytesToBase64,
  base64ToBytes, deriveKey, encryptMessage, decryptMessage, encryptFile);
* the MongoDB-backed entropy edge function (POST ingestion handler and
  GET issuance handler over the entropy_log collection);
* the legacy in-memory entropy edge function (POST handler with the
  degeneracy check);
* the client entropy cache (fetchEntropy with its 25 s TTL).

Bytes are modelled as Nat (a Uint8Array cell always holds a value < 256;
the predicate ValidBytes records that fact where it matters).  Timestamps
are modelled as Nat milliseconds; the code stores ISO-8601 strings whose
lexicographic order agrees with the numeric order of the instants they
denote, so the $gte comparison of the Mongo query is Nat order here.
Platform primitives that are not part of the repository (Web Crypto HKDF,
AES-GCM, getRandomValues, SHA-256) enter as explicit function parameters
or as explicit random-byte arguments; everything written in the repository
itself is translated concretely.
-/

namespace QRDFPX

/-- A list of Nat values that are genuine bytes (each < 256), i.e. the
contents of a Uint8Array. -/
def ValidBytes (l : List Nat) : Prop := ∀ b ∈ l, b < 256

instance : DecidablePred ValidBytes := fun l =>
  inferInstanceAs (Decidable (∀ b ∈ l, b < 256))

/-! ### Hex encoding (crypto module: hexToBytes / bytesToHex) -/

/-- Value of one hex digit, as parseInt sees it: decimal digits, lowercase
and uppercase letters; none means the character is not a hex digit. -/
def hexDigitVal (c : Char) : Option Nat :=
  if 48 ≤ c.toNat ∧ c.toNat ≤ 57 then some (c.toNat - 48)
  else if 97 ≤ c.toNat ∧ c.toNat ≤ 102 then some (c.toNat - 87)
  else if 65 ≤ c.toNat ∧ c.toNat ≤ 70 then some (c.toNat - 55)
  else none

/-- parseInt(hex.slice(i, i + 2), 16) followed by the Uint8Array store:
parseInt parses the longest valid prefix and a NaN result is stored as 0. -/
def hexPairVal (c1 c2 : Char) : Nat :=
  match hexDigitVal c1, hexDigitVal c2 with
  | some v1, some v2 => v1 * 16 + v2
  | some v1, none => v1
  | none, _ => 0

/-- Loop body of hexToBytes: consume the character list two at a time; a
trailing single character writes past the end of the buffer and is lost. -/
def hexToBytesAux : List Char → List Nat
  | c1 :: c2 :: rest => hexPairVal c1 c2 :: hexToBytesAux rest
  | _ => []

/-- hexToBytes from the crypto module: parse a hex string into bytes. -/
def hexToBytes (hex : String) : List Nat := hexToBytesAux hex.data

/-- b.toString(16): minimal-length lowercase hex digits of b. -/
def natHexDigits (b : Nat) : List Char := Nat.toDigits 16 b

/-- b.toString(16).padStart(2, "0"): the two-character cell of one byte. -/
def byteToHexStr (b : Nat) : List Char :=
  List.replicate (2 - (natHexDigits b).length) '0' ++ natHexDigits b

/-- Loop of bytesToHex: map each byte to its padded cell and concatenate. -/
def bytesToHexAux : List Nat → List Char
  | [] => []
  | b :: rest => byteToHexStr b ++ bytesToHexAux rest

/-- bytesToHex from the crypto module (the same expression is inlined in
the edge function for entropyHex and for the software fallback). -/
def bytesToHex (bytes : List Nat) : String := String.mk (bytesToHexAux bytes)

/-! ### Base64 transport encoding (bytesToBase64 / base64ToBytes)

bytesToBase64 is btoa over the Latin-1 string of the bytes and
base64ToBytes is atob followed by charCodeAt; the two JS primitives are
the RFC 4648 standard-alphabet encoder and decoder, written out here. -/

/-- The base64 alphabet in index order. -/
def b64Chars : List Char :=
  "ABCDEFGHIJKLMNOPQRSTUVWXYZabcdefghijklmnopqrstuvwxyz0123456789+/".data

/-- Character of a six-bit group. -/
def sextetChar (n : Nat) : Char := b64Chars.getD n 'A'

/-- Index of a base64 character in the alphabet. -/
def charSextet (c : Char) : Nat := b64Chars.indexOf c

/-- btoa: encode bytes three at a time, padding the final group. -/
def b64encode : List Nat → List Char
  | [] => []
  | [a] => [sextetChar (a / 4), sextetChar (a % 4 * 16), '=', '=']
  | [a, b] => [sextetChar (a / 4), sextetChar (a % 4 * 16 + b / 16),
      sextetChar (b % 16 * 4), '=']
  | a :: b :: c :: rest =>
      sextetChar (a / 4) :: sextetChar (a % 4 * 16 + b / 16) ::
      sextetChar (b % 16 * 4 + c / 64) :: sextetChar (c % 64) :: b64encode rest

/-- atob: decode characters four at a time, honouring the padding. -/
def b64decode : List Char → List Nat
  | c1 :: c2 :: c3 :: c4 :: rest =>
      if c3 = '=' then [charSextet c1 * 4 + charSextet c2 / 16]
      else if c4 = '=' then
        [charSextet c1 * 4 + charSextet c2 / 16,
         charSextet c2 % 16 * 16 + charSextet c3 / 4]
      else
        (charSextet c1 * 4 + charSextet c2 / 16) ::
        (charSextet c2 % 16 * 16 + charSextet c3 / 4) ::
        (charSextet c3 % 4 * 64 + charSextet c4) :: b64decode rest
  | _ => []

/-- bytesToBase64 from the crypto module: btoa(String.fromCharCode(...bytes)). -/
def bytesToBase64 (bytes : List Nat) : String := String.mk (b64encode bytes)

/-- base64ToBytes from the crypto module: atob then charCodeAt of each char. -/
def base64ToBytes (b64 : String) : List Nat := b64decode b64.data

/-! ### Key derivation and authenticated encryption (crypto module)

The Web Crypto primitives are not repository code; they enter as explicit
function parameters.  HkdfFn is crypto.subtle.deriveKey for HKDF-SHA256:
input key material, salt, info, output length in bytes, to derived key
bytes.  AeadEnc / AeadDec are AES-256-GCM encrypt / decrypt: key bytes,
12-byte IV, message, to ciphertext-plus-tag (decrypt returns none on an
authentication-tag mismatch).  Randomness (crypto.getRandomValues) enters
as explicit byte-list arguments. -/

def HkdfFn : Type := List Nat → List Nat → List Nat → Nat → List Nat

def AeadEnc : Type := List Nat → List Nat → List Nat → List Nat

def AeadDec : Type := List Nat → List Nat → List Nat → Option (List Nat)

/-- The fixed versioned HKDF info string of the crypto module, as the
UTF-8 bytes TextEncoder produces for it (all ASCII). -/
def hkdfInfo : List Nat := "QRNG-SecureComms-v1".data.map Char.toNat

/-- Result of deriveKey: the derived AES key and the salt actually used. -/
structure DeriveKeyOut where
  key : List Nat
  salt : List Nat
deriving DecidableEq, Repr

/-- deriveKey from the crypto module: ikm is hexToBytes of the entropy
hex; the salt is the supplied one, or 32 fresh random bytes (rng32) when
none is supplied; the key is HKDF-SHA256(ikm, salt, info, 256 bits).
The source performs no validation of the entropy length. -/
def deriveKey (hkdf : HkdfFn) (entropyHex : String) (salt : Option (List Nat))
    (rng32 : List Nat) : DeriveKeyOut :=
  let ikm := hexToBytes entropyHex
  let rawSalt := match salt with
    | some s => s
    | none => rng32
  { key := hkdf ikm rawSalt hkdfInfo 32, salt := rawSalt }

/-- Derivation error taxonomy of the specification. -/
inductive DeriveError where
  | invalidInput
deriving DecidableEq, Repr

/-- Modelled from the spec, for comparison with deriveKey: section 4.4
requires derive to fail with an invalid-input error when entropy_bytes is
not exactly 32 bytes, and otherwise behave as the source deriveKey. -/
def deriveKeySpec (hkdf : HkdfFn) (entropyHex : String)
    (salt : Option (List Nat)) (rng32 : List Nat) :
    Except DeriveError DeriveKeyOut :=
  if (hexToBytes entropyHex).length = 32 then
    Except.ok (deriveKey hkdf entropyHex salt rng32)
  else Except.error DeriveError.invalidInput

/-- The transport envelope returned by encryptMessage: all three fields
base64 strings. -/
structure MsgEnvelope where
  ciphertext : String
  iv : String
  salt : String
deriving DecidableEq, Repr

/-- encryptMessage from the crypto module.  plaintext is the byte list
TextEncoder produced from the message text; saltRng and ivRng are the 32
and 12 fresh random bytes the two getRandomValues calls return. -/
def encryptMessage (enc : AeadEnc) (hkdf : HkdfFn) (plaintext : List Nat)
    (entropyHex : String) (saltRng ivRng : List Nat) : MsgEnvelope :=
  let dk := deriveKey hkdf entropyHex none saltRng
  let iv := ivRng
  let cipher := enc dk.key iv plaintext
  { ciphertext := bytesToBase64 cipher
    iv := bytesToBase64 iv
    salt := bytesToBase64 dk.salt }

/-- decryptMessage from the crypto module: decode salt, re-derive the key
from the same entropy with that salt (no randomness is drawn on this
path), decode iv and ciphertext, and run AES-GCM decryption; the result
is the plaintext byte list TextDecoder would decode, none on a tag
mismatch. -/
def decryptMessage (dec : AeadDec) (hkdf : HkdfFn)
    (ciphertext ivB64 saltB64 entropyHex : String) : Option (List Nat) :=
  let salt := base64ToBytes saltB64
  let dk := deriveKey hkdf entropyHex (some salt) []
  let iv := base64ToBytes ivB64
  let cipherBytes := base64ToBytes ciphertext
  dec dk.key iv cipherBytes

/-- The result of encryptFile: the encrypted blob stays raw bytes, iv and
salt are base64 strings. -/
structure FileEnvelope where
  encryptedBlob : List Nat
  iv : String
  salt : String
deriving DecidableEq, Repr

/-- encryptFile from the crypto module: identical pipeline to
encryptMessage applied to the file bytes; the ciphertext goes into a Blob
instead of base64. -/
def encryptFile (enc : AeadEnc) (hkdf : HkdfFn) (fileBytes : List Nat)
    (entropyHex : String) (saltRng ivRng : List Nat) : FileEnvelope :=
  let dk := deriveKey hkdf entropyHex none saltRng
  let iv := ivRng
  let cipher := enc dk.key iv fileBytes
  { encryptedBlob := cipher
    iv := bytesToBase64 iv
    salt := bytesToBase64 dk.salt }

/-! ### MongoDB entropy edge function (ingestion POST and issuance GET) -/

/-- Source tag of an entropy sample. -/
inductive Source where
  | hardware
  | software
deriving DecidableEq, Repr

/-- One document of the entropy_log collection.  The Mongo _id is
modelled as a Nat assigned from a counter at insertion. -/
structure Sample where
  id : Nat
  entropy_hex : String
  source : Source
  used : Bool
  created_at : Nat
deriving DecidableEq, Repr

/-- The entropy_log collection plus the id counter. -/
structure Store where
  samples : List Sample
  nextId : Nat
deriving DecidableEq, Repr

/-- Expected raw payload size of the ingestion endpoint. -/
def ENTROPY_BYTES : Nat := 32

/-- Freshness window of the issuance endpoint in milliseconds. -/
def ENTROPY_MAX_AGE_MS : Nat := 30000

/-- Response of the POST handler, by its three exit points. -/
inductive PostResp where
  | invalidSize (got : Nat)
  | replay
  | accepted
deriving DecidableEq, Repr

/-- HTTP status the POST handler attaches to each response. -/
def postStatus : PostResp → Nat
  | PostResp.invalidSize _ => 400
  | PostResp.replay => 409
  | PostResp.accepted => 200

/-- The POST branch of the MongoDB edge function: exact-size check, hex
digest, findOne replay check on entropy_hex, then insertOne of a new
hardware sample with used = false and the current timestamp. -/
def entropyPost (st : Store) (body : List Nat) (now : Nat) : Store × PostResp :=
  if body.length ≠ ENTROPY_BYTES then (st, PostResp.invalidSize body.length)
  else if st.samples.any (fun s => decide (s.entropy_hex = bytesToHex body)) then
    (st, PostResp.replay)
  else
    ({ samples := st.samples ++
        [{ id := st.nextId, entropy_hex := bytesToHex body,
           source := Source.hardware, used := false, created_at := now }]
       nextId := st.nextId + 1 }, PostResp.accepted)

/-- The filter of the issuance findOne: used = false, source hardware,
created_at at or after the cutoff. -/
def freshMatch (cutoff : Nat) (s : Sample) : Bool :=
  !s.used && decide (s.source = Source.hardware) && decide (cutoff ≤ s.created_at)

/-- findOne with sort created_at descending: the first listed document
among those matching the filter with maximal created_at (Mongo leaves
ties unspecified; insertion order is the model's tie-break). -/
def findFresh (cutoff : Nat) : List Sample → Option Sample
  | [] => none
  | s :: rest =>
    if freshMatch cutoff s then
      match findFresh cutoff rest with
      | none => some s
      | some t => if s.created_at < t.created_at then some t else some s
    else findFresh cutoff rest

/-- updateOne on _id with set used = true: mark the first document
carrying the id (Mongo _id values are unique). -/
def setUsedFirst (i : Nat) : List Sample → List Sample
  | [] => []
  | s :: rest =>
    if s.id = i then { s with used := true } :: rest
    else s :: setUsedFirst i rest

/-- Body of the issuance GET response. -/
structure IssueResp where
  source : Source
  entropy_hex : String
  timestamp : Nat
deriving DecidableEq, Repr

/-- The GET branch of the MongoDB edge function: find the newest fresh
unconsumed hardware sample; if found mark it used and return it; else
return 32 fresh software bytes (rng) without touching the store. -/
def entropyGet (st : Store) (now : Nat) (rng : List Nat) : Store × IssueResp :=
  match findFresh (now - ENTROPY_MAX_AGE_MS) st.samples with
  | some s =>
      ({ st with samples := setUsedFirst s.id st.samples },
       { source := Source.hardware, entropy_hex := s.entropy_hex,
         timestamp := s.created_at })
  | none =>
      (st, { source := Source.software, entropy_hex := bytesToHex rng,
             timestamp := now })

/-- The _id values of the store are pairwise distinct (Mongo enforces
this on any collection). -/
def idsNodup (st : Store) : Prop := (st.samples.map Sample.id).Nodup

/-- The hex digests of the store are pairwise distinct (the ingestion
replay check maintains this; see the C4 theorem). -/
def hexesNodup (st : Store) : Prop := (st.samples.map Sample.entropy_hex).Nodup

instance (st : Store) : Decidable (idsNodup st) :=
  inferInstanceAs (Decidable (st.samples.map Sample.id).Nodup)

instance (st : Store) : Decidable (hexesNodup st) :=
  inferInstanceAs (Decidable (st.samples.map Sample.entropy_hex).Nodup)

/-! ### Legacy in-memory entropy edge function (the variant with the
degeneracy check) -/

/-- State of the in-memory variant: the single latestEntropy slot
(payload bytes and timestamp) and the hash log rows it inserts. -/
structure MemState where
  latest : Option (List Nat × Nat)
  log : List String
deriving DecidableEq, Repr

/-- Response of the in-memory POST handler. -/
inductive MemPostResp where
  | invalidSize
  | degenerate
  | okAccepted (hash : String)
deriving DecidableEq, Repr

/-- HTTP status of each in-memory POST response. -/
def memStatus : MemPostResp → Nat
  | MemPostResp.invalidSize => 400
  | MemPostResp.degenerate => 400
  | MemPostResp.okAccepted _ => 200

/-- The POST entropy branch of the in-memory variant: size check, then
the degeneracy check (all-zero or all-0xFF bytes are rejected before
anything is stored), then store in the latestEntropy slot and insert the
SHA-256 digest (the platform hash enters as the parameter sha256hex)
into the log. -/
def entropyPostMem (sha256hex : List Nat → String) (st : MemState)
    (body : List Nat) (now : Nat) : MemState × MemPostResp :=
  if body.length ≠ 32 then (st, MemPostResp.invalidSize)
  else if body.all (fun b => decide (b = 0)) || body.all (fun b => decide (b = 255)) then
    (st, MemPostResp.degenerate)
  else
    ({ latest := some (body, now), log := st.log ++ [sha256hex body] },
     MemPostResp.okAccepted (sha256hex body))

/-! ### Client entropy cache (src/lib/entropy.ts) -/

/-- The client-side record: source, entropy hex, issuance timestamp, and
the optional derived age.  The timestamp string of the response is
modelled as the Nat instant it parses to. -/
structure EntropyStatus where
  source : Source
  entropy_hex : String
  timestamp : Nat
  age_ms : Option Int
deriving DecidableEq, Repr

/-- Cache TTL of fetchEntropy in milliseconds. -/
def CACHE_TTL_MS : Nat := 25000

/-- Outcome of the network call fetchEntropy makes on a cache miss:
either the issuance response body, or any thrown failure. -/
inductive LiveResult where
  | ok (source : Source) (entropy_hex : String) (timestamp : Nat)
  | failed
deriving DecidableEq, Repr

/-- The try/catch body of fetchEntropy: on success cache and return the
live response with age_ms 0; on any failure cache and return a software
fallback built from 32 fresh random bytes. -/
def fetchEntropyLive (now : Nat) (live : LiveResult) (rng : List Nat) :
    Option EntropyStatus × EntropyStatus :=
  match live with
  | LiveResult.ok src hex ts =>
      (some { source := src, entropy_hex := hex, timestamp := ts, age_ms := none },
       { source := src, entropy_hex := hex, timestamp := ts, age_ms := some 0 })
  | LiveResult.failed =>
      let fallback : EntropyStatus :=
        { source := Source.software, entropy_hex := bytesToHex rng,
          timestamp := now, age_ms := some 0 }
      (some fallback, fallback)

/-- fetchEntropy from the client cache: first component the cache cell
after the call, second the returned status.  The age is computed from the
cached issuance timestamp against Date.now(). -/
def fetchEntropy (cache : Option EntropyStatus) (now : Nat) (live : LiveResult)
    (rng : List Nat) : Option EntropyStatus × EntropyStatus :=
  match cache with
  | some c =>
      if (now : Int) - (c.timestamp : Int) < (CACHE_TTL_MS : Int) then
        (some c, { c with age_ms := some ((now : Int) - (c.timestamp : Int)) })
      else fetchEntropyLive now live rng
  | none => fetchEntropyLive now live rng

/-- clearEntropyCache from the client cache. -/
def clearEntropyCache : Option EntropyStatus := none

/-! ### Concrete material for witnesses and counterexamples -/

/-- A degenerate AEAD pair for witnesses: identity encryption with total
decryption; it satisfies the round-trip and byte-validity hypotheses. -/
def idAeadEnc : AeadEnc := fun _ _ m => m

/-- Identity decryption matching idAeadEnc. -/
def idAeadDec : AeadDec := fun _ _ c => some c

/-- A constant HKDF for witnesses. -/
def constHkdf : HkdfFn := fun _ _ _ _ => List.replicate 32 0

/-- 32 zero bytes: the degenerate all-zero ingestion payload. -/
def zeros32 : List Nat := List.replicate 32 0

/-- The bytes 1 to 32: the accepted ingestion payload of the spec
scenario. -/
def seq32 : List Nat := (List.range 32).map (fun i => i + 1)

/-- A 64-character entropy hex (32 bytes). -/
def entropyHex64 : String :=
  "00112233445566778899aabbccddeeff00112233445566778899aabbccddeeff"

/-- 32 bytes of salt randomness for witnesses. -/
def saltRngW : List Nat := (List.range 32).map (fun i => 7 * i % 256)

/-- A 12-byte IV for witnesses. -/
def ivRngW : List Nat := (List.range 12).map (fun i => i + 100)

/-- A second, different 12-byte IV for witnesses. -/
def ivRngW2 : List Nat := (List.range 12).map (fun i => i + 200)

/-- An empty store. -/
def storeEmpty : Store := { samples := [], nextId := 0 }

/-- A store holding one fresh unconsumed hardware sample, as after the
spec scenario's single ingestion. -/
def storeOne : Store :=
  { samples := [{ id := 0, entropy_hex := "aa", source := Source.hardware,
                  used := false, created_at := 100000 }]
    nextId := 1 }

/-- The sample of storeOne. -/
def sampleOne : Sample :=
  { id := 0, entropy_hex := "aa", source := Source.hardware,
    used := false, created_at := 100000 }

/-- A cached client entry for the C9 witness. -/
def cachedW : EntropyStatus :=
  { source := Source.hardware, entropy_hex := "aa", timestamp := 9500,
    age_ms := none }

/-! ### Helper lemmas on the encodings -/

theorem charSextet_sextetChar : ∀ s < 64, charSextet (sextetChar s) = s := by decide

theorem sextetChar_ne_pad : ∀ s < 64, sextetChar s ≠ '=' := by decide

theorem b64_roundtrip_aux :
    ∀ l : List Nat, (∀ x ∈ l, x < 256) → b64decode (b64encode l) = l
  | [], _ => rfl
  | [a], h => by
    have ha : a < 256 := h a (by simp)
    have e1 : charSextet (sextetChar (a / 4)) = a / 4 :=
      charSextet_sextetChar _ (by omega)
    have e2 : charSextet (sextetChar (a % 4 * 16)) = a % 4 * 16 :=
      charSextet_sextetChar _ (by omega)
    show b64decode [sextetChar (a / 4), sextetChar (a % 4 * 16), '=', '='] = [a]
    simp [b64decode, e1, e2]
    omega
  | [a, b], h => by
    have ha : a < 256 := h a (by simp)
    have hb : b < 256 := h b (by simp)
    have e1 : charSextet (sextetChar (a / 4)) = a / 4 :=
      charSextet_sextetChar _ (by omega)
    have e2 : charSextet (sextetChar (a % 4 * 16 + b / 16)) = a % 4 * 16 + b / 16 :=
      charSextet_sextetChar _ (by omega)
    have e3 : charSextet (sextetChar (b % 16 * 4)) = b % 16 * 4 :=
      charSextet_sextetChar _ (by omega)
    have n3 : sextetChar (b % 16 * 4) ≠ '=' := sextetChar_ne_pad _ (by omega)
    show b64decode [sextetChar (a / 4), sextetChar (a % 4 * 16 + b / 16),
        sextetChar (b % 16 * 4), '='] = [a, b]
    simp [b64decode, n3, e1, e2, e3]
    omega
  | a :: b :: c :: d :: rest, h => by
    have ha : a < 256 := h a (by simp)
    have hb : b < 256 := h b (by simp)
    have hc : c < 256 := h c (by simp)
    have e1 : charSextet (sextetChar (a / 4)) = a / 4 :=
      charSextet_sextetChar _ (by omega)
    have e2 : charSextet (sextetChar (a % 4 * 16 + b / 16)) = a % 4 * 16 + b / 16 :=
      charSextet_sextetChar _ (by omega)
    have e3 : charSextet (sextetChar (b % 16 * 4 + c / 64)) = b % 16 * 4 + c / 64 :=
      charSextet_sextetChar _ (by omega)
    have e4 : charSextet (sextetChar (c % 64)) = c % 64 :=
      charSextet_sextetChar _ (by omega)
    have n3 : sextetChar (b % 16 * 4 + c / 64) ≠ '=' := sextetChar_ne_pad _ (by omega)
    have n4 : sextetChar (c % 64) ≠ '=' := sextetChar_ne_pad _ (by omega)
    have ih : b64decode (b64encode (d :: rest)) = d :: rest :=
      b64_roundtrip_aux (d :: rest) (fun x hx => h x (List.mem_cons_of_mem a
        (List.mem_cons_of_mem b (List.mem_cons_of_mem c hx))))
    show b64decode (sextetChar (a / 4) :: sextetChar (a % 4 * 16 + b / 16) ::
        sextetChar (b % 16 * 4 + c / 64) :: sextetChar (c % 64) ::
        b64encode (d :: rest)) = a :: b :: c :: d :: rest
    simp [b64decode, n3, n4, e1, e2, e3, e4, ih]
    omega
  | [a, b, c], h => by
    have ha : a < 256 := h a (by simp)
    have hb : b < 256 := h b (by simp)
    have hc : c < 256 := h c (by simp)
    have e1 : charSextet (sextetChar (a / 4)) = a / 4 :=
      charSextet_sextetChar _ (by omega)
    have e2 : charSextet (sextetChar (a % 4 * 16 + b / 16)) = a % 4 * 16 + b / 16 :=
      charSextet_sextetChar _ (by omega)
    have e3 : charSextet (sextetChar (b % 16 * 4 + c / 64)) = b % 16 * 4 + c / 64 :=
      charSextet_sextetChar _ (by omega)
    have e4 : charSextet (sextetChar (c % 64)) = c % 64 :=
      charSextet_sextetChar _ (by omega)
    have n3 : sextetChar (b % 16 * 4 + c / 64) ≠ '=' := sextetChar_ne_pad _ (by omega)
    have n4 : sextetChar (c % 64) ≠ '=' := sextetChar_ne_pad _ (by omega)
    show b64decode (sextetChar (a / 4) :: sextetChar (a % 4 * 16 + b / 16) ::
        sextetChar (b % 16 * 4 + c / 64) :: sextetChar (c % 64) :: b64encode []) =
        [a, b, c]
    simp [b64decode, n3, n4, e1, e2, e3, e4]
    omega

theorem base64_roundtrip (b : List Nat) (h : ValidBytes b) :
    base64ToBytes (bytesToBase64 b) = b := by
  have : (String.mk (b64encode b)).data = b64encode b := rfl
  simp only [base64ToBytes, bytesToBase64, this]
  exact b64_roundtrip_aux b h

theorem bytesToBase64_inj (x y : List Nat) (hx : ValidBytes x) (hy : ValidBytes y)
    (h : bytesToBase64 x = bytesToBase64 y) : x = y := by
  have hx1 := base64_roundtrip x hx
  have hy1 := base64_roundtrip y hy
  rw [← hx1, ← hy1, h]

theorem hexDigitVal_le (c : Char) (v : Nat) (h : hexDigitVal c = some v) : v ≤ 15 := by
  unfold hexDigitVal at h
  split at h
  · rename_i hr
    injection h with h
    omega
  · split at h
    · rename_i hr
      injection h with h
      omega
    · split at h
      · rename_i hr
        injection h with h
        omega
      · exact absurd h (by simp)

theorem hexPairVal_lt (c1 c2 : Char) : hexPairVal c1 c2 < 256 := by
  unfold hexPairVal
  rcases h1 : hexDigitVal c1 with _ | v1
  · simp
  · rcases h2 : hexDigitVal c2 with _ | v2
    · have := hexDigitVal_le c1 v1 h1
      simp
      omega
    · have := hexDigitVal_le c1 v1 h1
      have := hexDigitVal_le c2 v2 h2
      simp
      omega

theorem hexToBytesAux_valid : ∀ cs : List Char, ValidBytes (hexToBytesAux cs)
  | [] => by intro b hb; simp [hexToBytesAux] at hb
  | [c] => by intro b hb; simp [hexToBytesAux] at hb
  | c1 :: c2 :: rest => by
    intro b hb
    simp only [hexToBytesAux, List.mem_cons] at hb
    rcases hb with hb | hb
    · rw [hb]; exact hexPairVal_lt c1 c2
    · exact hexToBytesAux_valid rest b hb

theorem hexToBytes_valid (e : String) : ValidBytes (hexToBytes e) :=
  hexToBytesAux_valid e.data

set_option maxRecDepth 8192 in
theorem byteToHexStr_length : ∀ b < 256, (byteToHexStr b).length = 2 := by decide

theorem bytesToHexAux_length :
    ∀ l : List Nat, ValidBytes l → (bytesToHexAux l).length = 2 * l.length
  | [], _ => rfl
  | b :: rest, h => by
    have hb : b < 256 := h b (List.mem_cons_self b rest)
    have ih := bytesToHexAux_length rest (fun x hx => h x (List.mem_cons_of_mem b hx))
    simp only [bytesToHexAux, List.length_append, List.length_cons, ih,
      byteToHexStr_length b hb]
    omega

theorem bytesToHex_length (l : List Nat) (h : ValidBytes l) :
    (bytesToHex l).length = 2 * l.length := by
  have : (bytesToHex l).length = (bytesToHexAux l).length := rfl
  rw [this, bytesToHexAux_length l h]

/-! ### Claim theorems: the crypto module -/

/-- C10: base64 transport encoding round-trips: for every byte array b,
base64ToBytes (bytesToBase64 b) equals b, so the ciphertext, iv, and salt
fields of an envelope decode back to exactly the bytes that were
encoded. -/
theorem C10_base64_roundtrip (b : List Nat) (h : ValidBytes b) :
    base64ToBytes (bytesToBase64 b) = b :=
  base64_roundtrip b h

/-- Witness for C10 at a concrete 32-byte array. -/
theorem C10_witness : base64ToBytes (bytesToBase64 seq32) = seq32 :=
  C10_base64_roundtrip seq32 (by decide)

/-- C2: deriveKey is deterministic in (entropy hex, supplied salt): the
randomness argument is never consulted on the supplied-salt path, so two
calls with identical entropy and salt give bit-identical results, and the
returned salt is the supplied salt verbatim. -/
theorem C2_deriveKey_deterministic (hkdf : HkdfFn) (e : String) (s : List Nat)
    (rng1 rng2 : List Nat) :
    deriveKey hkdf e (some s) rng1 = deriveKey hkdf e (some s) rng2 ∧
    (deriveKey hkdf e (some s) rng1).key = (deriveKey hkdf e (some s) rng2).key ∧
    (deriveKey hkdf e (some s) rng1).salt = s :=
  ⟨rfl, rfl, rfl⟩

/-- C5 counterexample: a 1-byte entropy input ("ab" parses to the single
byte 171) makes the spec-side derive fail with the invalid-input error,
but the source deriveKey returns a derived key, not an error. -/
theorem C5_counterexample :
    (hexToBytes "ab").length = 1 ∧
    deriveKeySpec constHkdf "ab" none zeros32 =
      Except.error DeriveError.invalidInput ∧
    deriveKey constHkdf "ab" none zeros32 =
      { key := List.replicate 32 0, salt := zeros32 } := by
  refine ⟨rfl, rfl, rfl⟩

/-- C5 amended: deriveKey performs no validation of the entropy length;
for entropy hex of every length it returns a derived key (HKDF of the
parsed bytes with the chosen salt) and never signals an error; the parsed
entropy bytes are genuine bytes but their number is unconstrained. -/
theorem C5_amended_no_validation (hkdf : HkdfFn) (e : String)
    (salt : Option (List Nat)) (rng : List Nat) :
    deriveKey hkdf e salt rng =
      { key := hkdf (hexToBytes e) (salt.getD rng) hkdfInfo 32,
        salt := salt.getD rng } ∧
    ValidBytes (hexToBytes e) := by
  constructor
  · cases salt <;> rfl
  · exact hexToBytes_valid e

/-- C1: decrypting the envelope produced by encryptMessage — handing its
ciphertext, iv and salt fields together with the same entropy to
decryptMessage — returns exactly the plaintext, for every plaintext byte
sequence and valid 32-byte entropy, given that the platform AES-GCM
decrypt inverts encrypt and encrypt produces bytes. -/
theorem C1_encrypt_decrypt_roundtrip (enc : AeadEnc) (dec : AeadDec)
    (hkdf : HkdfFn) (p : List Nat) (e : String) (saltRng ivRng : List Nat)
    (hdec : ∀ k iv m, dec k iv (enc k iv m) = some m)
    (hencv : ∀ k iv m, ValidBytes m → ValidBytes (enc k iv m))
    (hp : ValidBytes p) (hsalt : ValidBytes saltRng) (hiv : ValidBytes ivRng)
    (he : (hexToBytes e).length = 32) :
    decryptMessage dec hkdf
      (encryptMessage enc hkdf p e saltRng ivRng).ciphertext
      (encryptMessage enc hkdf p e saltRng ivRng).iv
      (encryptMessage enc hkdf p e saltRng ivRng).salt e = some p := by
  have hct : ValidBytes (enc (hkdf (hexToBytes e) saltRng hkdfInfo 32) ivRng p) :=
    hencv _ _ _ hp
  show dec
      (hkdf (hexToBytes e) (base64ToBytes (bytesToBase64 saltRng)) hkdfInfo 32)
      (base64ToBytes (bytesToBase64 ivRng))
      (base64ToBytes (bytesToBase64
        (enc (hkdf (hexToBytes e) saltRng hkdfInfo 32) ivRng p))) = some p
  rw [base64_roundtrip saltRng hsalt, base64_roundtrip ivRng hiv,
    base64_roundtrip _ hct]
  exact hdec _ _ _

/-- Witness for C1 at a concrete plaintext and entropy, with the identity
AEAD pair and a constant HKDF in the platform slots. -/
theorem C1_witness :
    decryptMessage idAeadDec constHkdf
      (encryptMessage idAeadEnc constHkdf [72, 105] entropyHex64 saltRngW ivRngW).ciphertext
      (encryptMessage idAeadEnc constHkdf [72, 105] entropyHex64 saltRngW ivRngW).iv
      (encryptMessage idAeadEnc constHkdf [72, 105] entropyHex64 saltRngW ivRngW).salt
      entropyHex64 = some [72, 105] :=
  C1_encrypt_decrypt_roundtrip idAeadEnc idAeadDec constHkdf [72, 105] entropyHex64
    saltRngW ivRngW (fun _ _ _ => rfl) (fun _ _ _ h => h) (by decide) (by decide)
    (by decide) (by decide)

/-- C8: the envelope IV of encryptMessage and of encryptFile is exactly
the fresh random draw of that call, so two calls whose random IV draws
differ produce envelopes with different IVs even under the same entropy
and the same salt randomness (hence the same key): no (key, iv) pair is
used for two envelopes. -/
theorem C8_fresh_iv_per_envelope (enc : AeadEnc) (hkdf : HkdfFn)
    (p1 p2 f1 f2 : List Nat) (e : String) (saltRng iv1 iv2 : List Nat)
    (h1 : ValidBytes iv1) (h2 : ValidBytes iv2) (hne : iv1 ≠ iv2) :
    (encryptMessage enc hkdf p1 e saltRng iv1).iv = bytesToBase64 iv1 ∧
    (encryptFile enc hkdf f1 e saltRng iv1).iv = bytesToBase64 iv1 ∧
    (encryptMessage enc hkdf p1 e saltRng iv1).iv ≠
      (encryptMessage enc hkdf p2 e saltRng iv2).iv ∧
    (encryptFile enc hkdf f1 e saltRng iv1).iv ≠
      (encryptFile enc hkdf f2 e saltRng iv2).iv := by
  refine ⟨rfl, rfl, ?_, ?_⟩ <;>
    exact fun hcontra => hne (bytesToBase64_inj iv1 iv2 h1 h2 hcontra)

/-- Witness for C8 at two concrete distinct IV draws under one entropy
and one salt draw. -/
theorem C8_witness :
    (encryptMessage idAeadEnc constHkdf [1] entropyHex64 saltRngW ivRngW).iv ≠
      (encryptMessage idAeadEnc constHkdf [2] entropyHex64 saltRngW ivRngW2).iv :=
  (C8_fresh_iv_per_envelope idAeadEnc constHkdf [1] [2] [3] [4] entropyHex64
    saltRngW ivRngW ivRngW2 (by decide) (by decide) (by decide)).2.2.1

/-! ### Helper lemmas on the entropy store -/

theorem freshMatch_iff (cutoff : Nat) (s : Sample) :
    freshMatch cutoff s = true ↔
      s.used = false ∧ s.source = Source.hardware ∧ cutoff ≤ s.created_at := by
  simp [freshMatch, and_assoc]

theorem freshMatch_mono (c1 c2 : Nat) (s : Sample) (hle : c1 ≤ c2)
    (h : freshMatch c2 s = true) : freshMatch c1 s = true := by
  rw [freshMatch_iff] at h ⊢
  exact ⟨h.1, h.2.1, le_trans hle h.2.2⟩

theorem findFresh_some (c : Nat) (s : Sample) :
    ∀ l : List Sample, findFresh c l = some s → s ∈ l ∧ freshMatch c s = true
  | [], h => by simp [findFresh] at h
  | t :: rest, h => by
    unfold findFresh at h
    by_cases hm : freshMatch c t = true
    · rw [if_pos hm] at h
      rcases hr : findFresh c rest with _ | u
      · rw [hr] at h
        change some t = some s at h
        injection h with h
        subst h
        exact ⟨List.mem_cons_self t rest, hm⟩
      · rw [hr] at h
        change (if t.created_at < u.created_at then some u else some t) = some s at h
        by_cases hlt : t.created_at < u.created_at
        · rw [if_pos hlt] at h
          injection h with h
          have hrec := findFresh_some c u rest hr
          rw [← h]
          exact ⟨List.mem_cons_of_mem t hrec.1, hrec.2⟩
        · rw [if_neg hlt] at h
          injection h with h
          subst h
          exact ⟨List.mem_cons_self t rest, hm⟩
    · rw [if_neg hm] at h
      have hrec := findFresh_some c s rest h
      exact ⟨List.mem_cons_of_mem t hrec.1, hrec.2⟩

theorem findFresh_eq_none (c : Nat) :
    ∀ l : List Sample, (∀ t ∈ l, freshMatch c t = false) → findFresh c l = none
  | [], _ => rfl
  | t :: rest, h => by
    unfold findFresh
    have ht : freshMatch c t = false := h t (List.mem_cons_self t rest)
    rw [ht]
    simp only [Bool.false_eq_true, if_false]
    exact findFresh_eq_none c rest (fun u hu => h u (List.mem_cons_of_mem t hu))

theorem setUsedFirst_forall2 (i : Nat) :
    ∀ l : List Sample, List.Forall₂
      (fun s t => t = s ∨ (s.id = i ∧ t = { s with used := true }))
      l (setUsedFirst i l)
  | [] => List.Forall₂.nil
  | s :: rest => by
    unfold setUsedFirst
    by_cases hs : s.id = i
    · rw [if_pos hs]
      exact List.Forall₂.cons (Or.inr ⟨hs, rfl⟩)
        (List.forall₂_same.mpr (fun x _ => Or.inl rfl))
    · rw [if_neg hs]
      exact List.Forall₂.cons (Or.inl rfl) (setUsedFirst_forall2 i rest)

theorem mem_setUsedFirst (i : Nat) :
    ∀ l : List Sample, ∀ t ∈ setUsedFirst i l,
      t ∈ l ∨ ∃ s ∈ l, s.id = i ∧ t = { s with used := true }
  | [], t, ht => by simp [setUsedFirst] at ht
  | s :: rest, t, ht => by
    unfold setUsedFirst at ht
    by_cases hs : s.id = i
    · rw [if_pos hs] at ht
      rcases List.mem_cons.mp ht with h | h
      · exact Or.inr ⟨s, List.mem_cons_self s rest, hs, h⟩
      · exact Or.inl (List.mem_cons_of_mem s h)
    · rw [if_neg hs] at ht
      rcases List.mem_cons.mp ht with h | h
      · exact Or.inl (h ▸ List.mem_cons_self s rest)
      · rcases mem_setUsedFirst i rest t h with h2 | ⟨u, hu, hui, htu⟩
        · exact Or.inl (List.mem_cons_of_mem s h2)
        · exact Or.inr ⟨u, List.mem_cons_of_mem s hu, hui, htu⟩

theorem not_mem_setUsedFirst_self (s : Sample) (hu : s.used = false) :
    ∀ l : List Sample, s ∈ l → (l.map Sample.id).Nodup →
      s ∉ setUsedFirst s.id l
  | [], hmem, _ => by simp at hmem
  | t :: rest, hmem, hnd => by
    have hnd2 : (rest.map Sample.id).Nodup := (List.nodup_cons.mp hnd).2
    have hhead : t.id ∉ rest.map Sample.id := (List.nodup_cons.mp hnd).1
    unfold setUsedFirst
    by_cases ht : t.id = s.id
    · rw [if_pos ht]
      intro hcon
      rcases List.mem_cons.mp hcon with h | h
      · have h2 : s.used = true := by rw [h]
        rw [hu] at h2
        exact Bool.false_ne_true h2
      · have h2 : s.id ∈ rest.map Sample.id := List.mem_map_of_mem Sample.id h
        rw [← ht] at h2
        exact hhead h2
    · rw [if_neg ht]
      intro hcon
      rcases List.mem_cons.mp hcon with h | h
      · exact ht (by rw [← h])
      · have hmem2 : s ∈ rest := by
          rcases List.mem_cons.mp hmem with h2 | h2
          · exact absurd (by rw [h2]) ht
          · exact h2
        exact not_mem_setUsedFirst_self s hu rest hmem2 hnd2 h

theorem map_hex_setUsedFirst (i : Nat) :
    ∀ l : List Sample,
      (setUsedFirst i l).map Sample.entropy_hex = l.map Sample.entropy_hex
  | [] => rfl
  | s :: rest => by
    unfold setUsedFirst
    by_cases hs : s.id = i
    · rw [if_pos hs]
      rfl
    · rw [if_neg hs]
      simp only [List.map_cons, map_hex_setUsedFirst i rest]

theorem entropyGet_eq_found (st : Store) (now : Nat) (rng : List Nat) (s : Sample)
    (hf : findFresh (now - ENTROPY_MAX_AGE_MS) st.samples = some s) :
    entropyGet st now rng =
      ({ st with samples := setUsedFirst s.id st.samples },
       { source := Source.hardware, entropy_hex := s.entropy_hex,
         timestamp := s.created_at }) := by
  unfold entropyGet
  rw [hf]

theorem entropyGet_eq_fallback (st : Store) (now : Nat) (rng : List Nat)
    (hf : findFresh (now - ENTROPY_MAX_AGE_MS) st.samples = none) :
    entropyGet st now rng =
      (st, { source := Source.software, entropy_hex := bytesToHex rng,
             timestamp := now }) := by
  unfold entropyGet
  rw [hf]

/-! ### Claim theorems: the entropy edge functions and the client cache -/

/-- C3: each stored Hardware sample is issued at most once.  The GET
handler only moves used flags from false to true, pointwise, and the POST
handler only appends (never touching an existing flag); two sequential
GET calls never both return the same Hardware sample; and when the issued
sample was the only fresh unconsumed one, a second issuance call before
any new ingestion falls back to Software entropy. -/
theorem C3_issuance_single_use (st : Store) (now1 now2 : Nat)
    (rng1 rng2 : List Nat) (hid : idsNodup st) (hhex : hexesNodup st)
    (hnow : now1 ≤ now2) :
    (List.Forall₂ (fun s t => t.id = s.id ∧ t.entropy_hex = s.entropy_hex ∧
        t.source = s.source ∧ t.created_at = s.created_at ∧
        (s.used = true → t.used = true))
      st.samples (entropyGet st now1 rng1).1.samples) ∧
    (∀ body now, (entropyPost st body now).1.samples = st.samples ∨
      ∃ ns, ns.used = false ∧
        (entropyPost st body now).1.samples = st.samples ++ [ns]) ∧
    ((entropyGet st now1 rng1).2.source = Source.hardware →
      (entropyGet (entropyGet st now1 rng1).1 now2 rng2).2.source = Source.hardware →
      (entropyGet st now1 rng1).2.entropy_hex ≠
        (entropyGet (entropyGet st now1 rng1).1 now2 rng2).2.entropy_hex) ∧
    (∀ s, findFresh (now1 - ENTROPY_MAX_AGE_MS) st.samples = some s →
      (∀ t ∈ st.samples, freshMatch (now1 - ENTROPY_MAX_AGE_MS) t = true → t = s) →
      (entropyGet (entropyGet st now1 rng1).1 now2 rng2).2.source = Source.software) := by
  have hcut : now1 - ENTROPY_MAX_AGE_MS ≤ now2 - ENTROPY_MAX_AGE_MS :=
    Nat.sub_le_sub_right hnow _
  refine ⟨?_, ?_, ?_, ?_⟩
  · -- (a) pointwise monotonicity of the GET handler
    rcases hf : findFresh (now1 - ENTROPY_MAX_AGE_MS) st.samples with _ | s
    · rw [entropyGet_eq_fallback st now1 rng1 hf]
      exact List.forall₂_same.mpr (fun x _ => ⟨rfl, rfl, rfl, rfl, fun h => h⟩)
    · rw [entropyGet_eq_found st now1 rng1 s hf]
      refine (setUsedFirst_forall2 s.id st.samples).imp (fun a b hab => ?_)
      rcases hab with hab | ⟨_, hab⟩
      · subst hab
        exact ⟨rfl, rfl, rfl, rfl, fun h => h⟩
      · subst hab
        exact ⟨rfl, rfl, rfl, rfl, fun _ => rfl⟩
  · -- (a2) the POST handler appends or leaves the samples unchanged
    intro body now
    unfold entropyPost
    by_cases hlen : body.length ≠ ENTROPY_BYTES
    · rw [if_pos hlen]
      exact Or.inl rfl
    · rw [if_neg hlen]
      by_cases hany : st.samples.any
          (fun s => decide (s.entropy_hex = bytesToHex body)) = true
      · rw [if_pos hany]
        exact Or.inl rfl
      · rw [if_neg hany]
        exact Or.inr ⟨_, rfl, rfl⟩
  · -- (b) two sequential GETs never return the same hardware hex
    intro h1 h2 heq
    rcases hf1 : findFresh (now1 - ENTROPY_MAX_AGE_MS) st.samples with _ | s
    · rw [entropyGet_eq_fallback st now1 rng1 hf1] at h1
      exact absurd h1 (by simp)
    · have hst1 := entropyGet_eq_found st now1 rng1 s hf1
      rw [hst1] at h2 heq
      rcases hf2 : findFresh (now2 - ENTROPY_MAX_AGE_MS)
          (setUsedFirst s.id st.samples) with _ | t
      · rw [entropyGet_eq_fallback _ now2 rng2 hf2] at h2
        exact absurd h2 (by simp)
      · rw [entropyGet_eq_found _ now2 rng2 t hf2] at heq
        have hs := findFresh_some _ s _ hf1
        have htt := findFresh_some _ t _ hf2
        have htused : t.used = false := ((freshMatch_iff _ t).mp htt.2).1
        have heq2 : s.entropy_hex = t.entropy_hex := heq
        rcases mem_setUsedFirst s.id st.samples t htt.1 with hmem | ⟨u, _, _, htu⟩
        · have hts : t = s := List.inj_on_of_nodup_map hhex hmem hs.1 heq2.symm
          subst hts
          exact not_mem_setUsedFirst_self t htused st.samples hmem hid htt.1
        · rw [htu] at htused
          exact absurd htused (by simp)
  · -- (c) the only fresh sample being consumed, the second GET is software
    intro s hf1 huniq
    have hs := findFresh_some _ s _ hf1
    have hst1 := entropyGet_eq_found st now1 rng1 s hf1
    have hnone : findFresh (now2 - ENTROPY_MAX_AGE_MS)
        (setUsedFirst s.id st.samples) = none := by
      apply findFresh_eq_none
      intro t htmem
      cases hb : freshMatch (now2 - ENTROPY_MAX_AGE_MS) t with
      | false => rfl
      | true =>
        exfalso
        have htused : t.used = false := ((freshMatch_iff _ t).mp hb).1
        rcases mem_setUsedFirst s.id st.samples t htmem with hmem | ⟨u, _, _, htu⟩
        · have ht1 : freshMatch (now1 - ENTROPY_MAX_AGE_MS) t = true :=
            freshMatch_mono _ _ t hcut hb
          have hts : t = s := huniq t hmem ht1
          subst hts
          exact not_mem_setUsedFirst_self t htused st.samples hmem hid htmem
        · rw [htu] at htused
          exact absurd htused (by simp)
    rw [hst1]
    rw [entropyGet_eq_fallback _ now2 rng2 hnone]

/-- Witness for C3: the spec scenario store with one fresh sample; its
issuance consumes the sample and a second call falls back to Software. -/
theorem C3_witness :
    (entropyGet (entropyGet storeOne 100000 saltRngW).1 100010 saltRngW).2.source =
      Source.software :=
  (C3_issuance_single_use storeOne 100000 100010 saltRngW saltRngW (by decide)
    (by decide) (by decide)).2.2.2 sampleOne (by decide) (by decide)

/-- C4: ingesting a fresh 32-byte payload succeeds and stores a new
Hardware sample with used = false; immediately re-ingesting the same
payload is rejected as a replay with HTTP 409 and stores nothing; and the
ingestion preserves uniqueness of the stored hex digests. -/
theorem C4_replay_rejection (st : Store) (e : List Nat) (now1 now2 : Nat)
    (hlen : e.length = 32) (hv : ValidBytes e)
    (hfresh : ∀ s ∈ st.samples, s.entropy_hex ≠ bytesToHex e)
    (hnd : hexesNodup st) :
    (entropyPost st e now1).2 = PostResp.accepted ∧
    postStatus (entropyPost st e now1).2 = 200 ∧
    (entropyPost st e now1).1.samples = st.samples ++
      [{ id := st.nextId, entropy_hex := bytesToHex e, source := Source.hardware,
         used := false, created_at := now1 }] ∧
    (entropyPost (entropyPost st e now1).1 e now2).2 = PostResp.replay ∧
    postStatus (entropyPost (entropyPost st e now1).1 e now2).2 = 409 ∧
    (entropyPost (entropyPost st e now1).1 e now2).1 = (entropyPost st e now1).1 ∧
    hexesNodup (entropyPost st e now1).1 := by
  have hsize : ¬ e.length ≠ ENTROPY_BYTES := by
    rw [hlen]
    exact fun h => h rfl
  have hany : st.samples.any
      (fun s => decide (s.entropy_hex = bytesToHex e)) = false := by
    rw [List.any_eq_false]
    intro s hsmem
    simp only [decide_eq_true_eq]
    exact hfresh s hsmem
  have h1 : entropyPost st e now1 =
      ((⟨st.samples ++ [⟨st.nextId, bytesToHex e, Source.hardware, false, now1⟩],
        st.nextId + 1⟩ : Store), PostResp.accepted) := by
    unfold entropyPost
    rw [if_neg hsize, hany]
    simp only [Bool.false_eq_true, if_false]
  have hany2 : ((st.samples ++
      [(⟨st.nextId, bytesToHex e, Source.hardware, false, now1⟩ : Sample)]).any
      (fun s => decide (s.entropy_hex = bytesToHex e))) = true := by
    rw [List.any_eq_true]
    exact ⟨_, List.mem_append_right _ (List.mem_cons_self _ _), by simp⟩
  have h2 : entropyPost
      (⟨st.samples ++ [⟨st.nextId, bytesToHex e, Source.hardware, false, now1⟩],
        st.nextId + 1⟩ : Store) e now2 =
      ((⟨st.samples ++ [⟨st.nextId, bytesToHex e, Source.hardware, false, now1⟩],
        st.nextId + 1⟩ : Store), PostResp.replay) := by
    unfold entropyPost
    rw [if_neg hsize, hany2]
    simp only [if_true]
  have hstore : (entropyPost st e now1).1 =
      (⟨st.samples ++ [⟨st.nextId, bytesToHex e, Source.hardware, false, now1⟩],
        st.nextId + 1⟩ : Store) := by
    rw [h1]
  have hresp : (entropyPost st e now1).2 = PostResp.accepted := by
    rw [h1]
  refine ⟨hresp, by rw [hresp]; rfl, by rw [hstore], by rw [hstore, h2],
    by rw [hstore, h2]; rfl, by rw [hstore, h2], ?_⟩
  show hexesNodup (entropyPost st e now1).1
  rw [hstore]
  show ((st.samples ++
      [(⟨st.nextId, bytesToHex e, Source.hardware, false, now1⟩ : Sample)]).map
      Sample.entropy_hex).Nodup
  rw [List.map_append, List.nodup_append]
  refine ⟨hnd, List.nodup_singleton _, ?_⟩
  intro a ha hb
  rcases List.mem_map.mp ha with ⟨s, hsmem, hsa⟩
  have hb2 : a = bytesToHex e := by simpa using hb
  exact hfresh s hsmem (hsa.trans hb2)

/-- Witness for C4: the spec scenario payload 0x01..0x20 on an empty
store is accepted and its immediate re-ingestion is rejected as replay. -/
theorem C4_witness :
    (entropyPost (entropyPost storeEmpty seq32 1000).1 seq32 2000).2 =
      PostResp.replay :=
  (C4_replay_rejection storeEmpty seq32 1000 2000 (by decide) (by decide)
    (by decide) (by decide)).2.2.2.1

/-- C6 counterexample: the MongoDB ingestion handler (the endpoint the
claim and its first source point at) accepts the all-zero 32-byte payload
with HTTP 200 and stores it; it does not reject it with a 400 degeneracy
error. -/
theorem C6_counterexample :
    zeros32.length = 32 ∧ (∀ b ∈ zeros32, b = 0) ∧
    (entropyPost storeEmpty zeros32 1000).2 = PostResp.accepted ∧
    postStatus (entropyPost storeEmpty zeros32 1000).2 = 200 ∧
    (entropyPost storeEmpty zeros32 1000).1.samples =
      [{ id := 0, entropy_hex := bytesToHex zeros32, source := Source.hardware,
         used := false, created_at := 1000 }] := by
  refine ⟨by decide, by decide, ?_, ?_, ?_⟩ <;> rfl

/-- C6 amended: only the in-memory variant of the ingestion endpoint
performs the degeneracy check: it rejects a 32-byte all-zero or all-0xFF
payload with HTTP 400 and stores nothing, while the MongoDB handler
accepts such a payload subject only to the replay check. -/
theorem C6_amended_degeneracy_check (sha256hex : List Nat → String)
    (st : MemState) (body : List Nat) (now : Nat) (hlen : body.length = 32)
    (hdeg : (∀ b ∈ body, b = 0) ∨ (∀ b ∈ body, b = 255)) :
    entropyPostMem sha256hex st body now = (st, MemPostResp.degenerate) ∧
    memStatus (entropyPostMem sha256hex st body now).2 = 400 := by
  have hsize : ¬ body.length ≠ 32 := by
    rw [hlen]
    exact fun h => h rfl
  have hcond : (body.all (fun b => decide (b = 0)) ||
      body.all (fun b => decide (b = 255))) = true := by
    rcases hdeg with h | h
    · apply Bool.or_eq_true_iff.mpr
      exact Or.inl (List.all_eq_true.mpr (fun b hb => decide_eq_true (h b hb)))
    · apply Bool.or_eq_true_iff.mpr
      exact Or.inr (List.all_eq_true.mpr (fun b hb => decide_eq_true (h b hb)))
  have hres : entropyPostMem sha256hex st body now = (st, MemPostResp.degenerate) := by
    unfold entropyPostMem
    rw [if_neg hsize, hcond]
    simp only [if_true]
  exact ⟨hres, by rw [hres]; rfl⟩

/-- Witness for C6's amended claim: the all-zero payload is rejected by
the in-memory handler and the state is untouched. -/
theorem C6_witness :
    entropyPostMem (fun _ => "h") { latest := none, log := [] } zeros32 500 =
      ({ latest := none, log := [] }, MemPostResp.degenerate) :=
  (C6_amended_degeneracy_check (fun _ => "h") { latest := none, log := [] }
    zeros32 500 (by decide) (Or.inl (by decide))).1

/-- C7: with no fresh unconsumed hardware sample in the window, the GET
handler returns Software source with a freshly generated 32-byte (64 hex
character) entropy value and the current timestamp, and performs no write
to the store. -/
theorem C7_software_fallback (st : Store) (now : Nat) (rng : List Nat)
    (hrlen : rng.length = 32) (hrv : ValidBytes rng)
    (hnone : ∀ s ∈ st.samples, freshMatch (now - ENTROPY_MAX_AGE_MS) s = false) :
    (entropyGet st now rng).1 = st ∧
    (entropyGet st now rng).2.source = Source.software ∧
    (entropyGet st now rng).2.entropy_hex = bytesToHex rng ∧
    (entropyGet st now rng).2.entropy_hex.length = 64 ∧
    (entropyGet st now rng).2.timestamp = now := by
  have hget := entropyGet_eq_fallback st now rng
    (findFresh_eq_none _ _ hnone)
  refine ⟨by rw [hget], by rw [hget], by rw [hget], ?_, by rw [hget]⟩
  rw [hget]
  show (bytesToHex rng).length = 64
  rw [bytesToHex_length rng hrv, hrlen]

/-- Witness for C7 on the empty store. -/
theorem C7_witness :
    (entropyGet storeEmpty 500 seq32).2.source = Source.software :=
  (C7_software_fallback storeEmpty 500 seq32 (by decide) (by decide)
    (by decide)).2.1

/-- C9: the client cache fetch returns the cached value annotated with
the derived age whenever the age is below the 25000 ms TTL, leaving the
cache untouched; otherwise (and on an empty cache) it performs the live
call and replaces the cache with the fresh result, returned with
age_ms 0. -/
theorem C9_cache_ttl (c : EntropyStatus) (now : Nat) (live : LiveResult)
    (rng : List Nat) :
    ((now : Int) - (c.timestamp : Int) < (CACHE_TTL_MS : Int) →
      fetchEntropy (some c) now live rng =
        (some c, { c with age_ms := some ((now : Int) - (c.timestamp : Int)) })) ∧
    (∀ src hex ts, ¬ ((now : Int) - (c.timestamp : Int) < (CACHE_TTL_MS : Int)) →
      live = LiveResult.ok src hex ts →
      fetchEntropy (some c) now live rng =
        (some { source := src, entropy_hex := hex, timestamp := ts, age_ms := none },
         { source := src, entropy_hex := hex, timestamp := ts, age_ms := some 0 })) ∧
    (∀ src hex ts, live = LiveResult.ok src hex ts →
      fetchEntropy none now live rng =
        (some { source := src, entropy_hex := hex, timestamp := ts, age_ms := none },
         { source := src, entropy_hex := hex, timestamp := ts, age_ms := some 0 })) := by
  refine ⟨?_, ?_, ?_⟩
  · intro hlt
    simp only [fetchEntropy]
    rw [if_pos hlt]
  · intro src hex ts hge hlive
    simp only [fetchEntropy]
    rw [if_neg hge, hlive]
    rfl
  · intro src hex ts hlive
    simp only [fetchEntropy]
    rw [hlive]
    rfl

/-- Witness for C9: a 500 ms old cache entry is served from the cache
with its derived age. -/
theorem C9_witness :
    fetchEntropy (some cachedW) 10000 (LiveResult.ok Source.hardware "bb" 10000)
      seq32 =
      (some cachedW,
       { cachedW with age_ms := some ((10000 : Int) - (cachedW.timestamp : Int)) }) :=
  (C9_cache_ttl cachedW 10000 (LiveResult.ok Source.hardware "bb" 10000) seq32).1
    (by decide)

end QRDFPX
